import Mathlib

/-
Verification of the physics core of universe.py (N-body gravity simulator).

Shallow embedding of:
  src/universe/obj/massive_body.py  (MassiveBody)
  src/universe/obj/universe.py      (Universe)
  src/universe/constants.py         (G)

Machine floating-point numbers are embedded as exact real numbers; 2-vectors
(numpy arrays of shape (2,)) as pairs of reals.  Mutation is embedded as
explicit state passing: a method that mutates `self` becomes a function
returning the updated record, and the in-place mutation of list elements in
the pairwise gravity loop becomes `List.set` at the mutated index.
-/

set_option maxHeartbeats 1000000

namespace UniversePy

/-- A 2-component real vector (models `np.ndarray[np.float64]` of length 2). -/
abbrev Vec := ℝ × ℝ

/-- Models `np.dot` on 2-vectors. -/
def dot (v w : Vec) : ℝ := v.1 * w.1 + v.2 * w.2

/-- Gravitational constant, `src/universe/constants.py`:
`G = np.float64(scipy.constants.gravitational_constant)` = 6.6743e-11. -/
noncomputable def G : ℝ := 66743 / 10 ^ 15

/-- Maximum substep length, `src/universe/obj/universe.py` line 14:
`MAX_DELTA_TIME = 60 * 60`. -/
def MAX_DELTA_TIME : ℕ := 60 * 60

/-- The numba-visible state of `MassiveBody` (`src/universe/obj/massive_body.py`),
plus the interpreter-side `name` slot.  The pyglet `shape` slot is rendering
state outside the physics core and is not modelled. -/
@[ext]
structure MassiveBody where
  mass : ℝ
  radius : ℝ
  position : Vec
  velocity : Vec
  acceleration : Vec
  id : ℤ
  name : String

instance : Inhabited MassiveBody :=
  ⟨{ mass := 0, radius := 0, position := 0, velocity := 0, acceleration := 0,
     id := -1, name := "" }⟩

/-- Total indexing into a body list (used to state element-wise properties;
in-bounds it is the list element, out of bounds the `Inhabited` default). -/
def nth (bs : List MassiveBody) (k : ℕ) : MassiveBody := bs.getD k default

/-- `MassiveBody.__init__` (massive_body.py lines 41-55): stores the given
mass/radius/position/velocity, zeroes the acceleration and sets `id = -1`.
It performs no validation of its arguments.  The `name` slot is not assigned
until `py_init`; it is embedded here as the empty string. -/
def MassiveBody.init (mass radius : ℝ) (position velocity : Vec) : MassiveBody :=
  { mass := mass, radius := radius, position := position, velocity := velocity,
    acceleration := 0, id := -1, name := "" }

/-- `MassiveBody.update_half_step` (massive_body.py lines 70-83):
if `is_first_step` is false, `velocity += acceleration * delta_time` (a
full-length kick); then `position += velocity * delta_time / 2` (using the
updated velocity); then the acceleration is reset to zero. -/
noncomputable def MassiveBody.update_half_step
    (self : MassiveBody) (delta_time : ℝ) (is_first_step : Bool) : MassiveBody :=
  let velocity := if is_first_step then self.velocity
    else self.velocity + delta_time • self.acceleration
  { self with
      velocity := velocity
      position := self.position + (delta_time / 2) • velocity
      acceleration := 0 }

/-- The shared quantity `distance_cubed` of `apply_mirrored_gravity`
(massive_body.py line 101): `np.dot(d, d) ** (3 / 2)` for
`d = other.position - self.position`. -/
noncomputable def distance_cubed (self other : MassiveBody) : ℝ :=
  dot (other.position - self.position) (other.position - self.position) ^ ((3 : ℝ) / 2)

/-- The shared `force` term of `apply_mirrored_gravity` (massive_body.py
line 103): `G / distance_cubed * distance_vec`. -/
noncomputable def pairForce (self other : MassiveBody) : Vec :=
  (G / distance_cubed self other) • (other.position - self.position)

/-- `MassiveBody.apply_mirrored_gravity` (massive_body.py lines 94-107):
computes the shared field term once and mutates both bodies,
`self.acceleration += other.mass * force` and
`other.acceleration -= self.mass * force`.  Embedded as returning the
updated pair `(self, other)`. -/
noncomputable def MassiveBody.apply_mirrored_gravity
    (self other : MassiveBody) : MassiveBody × MassiveBody :=
  let force := pairForce self other
  ({ self with acceleration := self.acceleration + other.mass • force },
   { other with acceleration := other.acceleration - self.mass • force })

/-- The numba-visible state of `Universe` (`src/universe/obj/universe.py`). -/
@[ext]
structure Universe where
  massive_bodies : List MassiveBody
  current_id : ℤ
  time_scale : ℝ

/-- `Universe.__init__` (universe.py lines 27-30): empty body list,
`current_id = 0`, `time_scale = 1`. -/
noncomputable def Universe.init : Universe :=
  { massive_bodies := [], current_id := 0, time_scale := 1 }

/-- `Universe.add_massive_body` (universe.py lines 55-62): appends to the
body list. -/
def Universe.add_massive_body (self : Universe) (massive_body : MassiveBody) : Universe :=
  { self with massive_bodies := self.massive_bodies ++ [massive_body] }

/-- `MassiveBody.py_init` (massive_body.py lines 155-180), restricted to its
universe-side effect: `universe.add_massive_body(self)`, then
`self.id = universe.current_id`, then `universe.current_id += 1`, then
`self.name = name`.  In the source the appended list entry aliases `self`, so
the registered entry carries the assigned id and name; the functional
embedding therefore appends the body with those fields already set.  The
interpreter-only pyglet window/shape handling is rendering state outside the
physics core and is not modelled. -/
def MassiveBody.py_init (self : MassiveBody) (univ : Universe) (name : String) : Universe :=
  let u1 := univ.add_massive_body
    { self with id := univ.current_id, name := name }
  { u1 with current_id := univ.current_id + 1 }

/-- One iteration of the inner loop of the pairwise gravity phase
(universe.py lines 46-51):
`self.massive_bodies[i].apply_mirrored_gravity(self.massive_bodies[j])`,
with the in-place mutation of the two list entries embedded as `List.set`. -/
noncomputable def gravityPairStep (bs : List MassiveBody) (p : ℕ × ℕ) : List MassiveBody :=
  let r := (nth bs p.1).apply_mirrored_gravity (nth bs p.2)
  (bs.set p.1 r.1).set p.2 r.2

/-- The pairwise gravity phase of `Universe.update` (universe.py lines 45-51):
`for i in range(total_bodies): for j in range(i + 1, total_bodies): ...`. -/
noncomputable def applyPairs (bs : List MassiveBody) : List MassiveBody :=
  let total_bodies := bs.length
  (List.range total_bodies).foldl
    (fun acc i =>
      (List.range' (i + 1) (total_bodies - (i + 1))).foldl
        (fun acc2 j => gravityPairStep acc2 (i, j)) acc)
    bs

/-- The index pairs visited by the gravity double loop, in visit order:
all `(i, j)` with `i < j < n`, lexicographically. -/
def pairIndices (n : ℕ) : List (ℕ × ℕ) :=
  (List.range n).flatMap fun i =>
    (List.range' (i + 1) (n - (i + 1))).map fun j => (i, j)

/-- Models `np.arange(0, stop, stepSize)` for a positive real `stepSize` in
exact arithmetic: the values `stepSize * k` for `0 ≤ k < ⌈stop / stepSize⌉`. -/
noncomputable def arange (stop stepSize : ℝ) : List ℝ :=
  (List.range (Int.ceil (stop / stepSize)).toNat).map fun k : ℕ => stepSize * (k : ℝ)

/-- The substep lengths used by one `Universe.update(delta_time)` call after
time scaling (universe.py lines 40-43): for each loop value
`s in np.arange(0, delta_time + MAX_DELTA_TIME, MAX_DELTA_TIME)` the loop
body rebinds `step = delta_time - s` and then caps `if step > 0:
step = MAX_DELTA_TIME`. -/
noncomputable def substepLengths (delta_time : ℝ) : List ℝ :=
  (arange (delta_time + MAX_DELTA_TIME) MAX_DELTA_TIME).map fun s =>
    let step := delta_time - s
    if 0 < step then (MAX_DELTA_TIME : ℝ) else step

/-- One substep of `Universe.update` (universe.py lines 44-53): a kinematic
half step on every body, the pairwise gravity phase, then a second kinematic
half step on every body.

Modelled from the spec: the source calls
`massive_body.update_half_step(step)` without the mandatory `is_first_step`
argument (massive_body.py line 71 declares it with no default), a call that
cannot execute; following spec section 4.3, the first half-step loop of the
first substep of a call passes `is_first_step = true` and every other
half step passes `false`. -/
noncomputable def substepRun (bs : List MassiveBody) (step : ℝ) (is_first : Bool) :
    List MassiveBody :=
  (applyPairs (bs.map fun b => b.update_half_step step is_first)).map
    fun b => b.update_half_step step false

/-- The substep loop of `Universe.update`: runs `substepRun` once per entry of
the substep-length list, the first substep with the first-step flag set. -/
noncomputable def runSubsteps : List ℝ → List MassiveBody → Bool → List MassiveBody
  | [], bs, _ => bs
  | step :: rest, bs, is_first => runSubsteps rest (substepRun bs step is_first) false

/-- `Universe.update` (universe.py lines 32-53): scales the elapsed time by
`time_scale` and runs the substep loop over the body list.  See `substepRun`
for the one spec-modelled aspect (`is_first_step` threading). -/
noncomputable def Universe.update (self : Universe) (delta_time : ℝ) : Universe :=
  { self with
      massive_bodies :=
        runSubsteps (substepLengths (delta_time * self.time_scale))
          self.massive_bodies true }

/-- Mass-weighted sum of velocities over a body list (the total momentum of
spec section 8). -/
noncomputable def momentum (bs : List MassiveBody) : Vec :=
  (bs.map fun b => b.mass • b.velocity).sum

/-- Mass-weighted sum of accelerations (used to prove momentum conservation
of the mirrored gravity phase). -/
noncomputable def wAccel (bs : List MassiveBody) : Vec :=
  (bs.map fun b => b.mass • b.acceleration).sum

/-- The change the loop iteration for index pair `p` makes to the
acceleration of the body at index `k`. -/
noncomputable def pairDelta (bs : List MassiveBody) (k : ℕ) (p : ℕ × ℕ) : Vec :=
  if k = p.1 then (nth bs p.2).mass • pairForce (nth bs p.1) (nth bs p.2)
  else if k = p.2 then -((nth bs p.1).mass • pairForce (nth bs p.1) (nth bs p.2))
  else 0

/-- Concrete quiescent body used as a test input (mass 1 at the origin). -/
noncomputable def bodyA : MassiveBody :=
  { mass := 1, radius := 1, position := (0, 0), velocity := (1, 2),
    acceleration := 0, id := 0, name := "" }

/-- Concrete quiescent body used as a test input (mass 2, one meter away). -/
noncomputable def bodyB : MassiveBody :=
  { mass := 2, radius := 1, position := (1, 0), velocity := (0, 0),
    acceleration := 0, id := 1, name := "" }

/-- Concrete one-body universe used as a test input. -/
noncomputable def uOne : Universe :=
  { massive_bodies := [bodyA], current_id := 1, time_scale := 1 }

/-- Concrete two-body universe used as a test input. -/
noncomputable def uTwo : Universe :=
  { massive_bodies := [bodyA, bodyB], current_id := 2, time_scale := 1 }

/-! ### Elementary unfolding lemmas for the body operations -/

@[simp] theorem update_half_step_mass (b : MassiveBody) (h : ℝ) (f : Bool) :
    (b.update_half_step h f).mass = b.mass := rfl

@[simp] theorem update_half_step_radius (b : MassiveBody) (h : ℝ) (f : Bool) :
    (b.update_half_step h f).radius = b.radius := rfl

@[simp] theorem update_half_step_id (b : MassiveBody) (h : ℝ) (f : Bool) :
    (b.update_half_step h f).id = b.id := rfl

@[simp] theorem update_half_step_name (b : MassiveBody) (h : ℝ) (f : Bool) :
    (b.update_half_step h f).name = b.name := rfl

@[simp] theorem update_half_step_acceleration (b : MassiveBody) (h : ℝ) (f : Bool) :
    (b.update_half_step h f).acceleration = 0 := rfl

theorem update_half_step_velocity (b : MassiveBody) (h : ℝ) (f : Bool) :
    (b.update_half_step h f).velocity =
      if f then b.velocity else b.velocity + h • b.acceleration := rfl

theorem update_half_step_position (b : MassiveBody) (h : ℝ) (f : Bool) :
    (b.update_half_step h f).position =
      b.position + (h / 2) • (b.update_half_step h f).velocity := rfl

theorem update_half_step_of_accel_zero (b : MassiveBody) (h : ℝ) (f : Bool)
    (hb : b.acceleration = 0) :
    b.update_half_step h f =
      { b with position := b.position + (h / 2) • b.velocity, acceleration := 0 } := by
  unfold MassiveBody.update_half_step
  ext <;> simp [hb]

theorem apply_mirrored_gravity_fst (b c : MassiveBody) :
    (b.apply_mirrored_gravity c).1 =
      { b with acceleration := b.acceleration + c.mass • pairForce b c } := rfl

theorem apply_mirrored_gravity_snd (b c : MassiveBody) :
    (b.apply_mirrored_gravity c).2 =
      { c with acceleration := c.acceleration - b.mass • pairForce b c } := rfl

@[simp] theorem default_acceleration : (default : MassiveBody).acceleration = 0 := rfl

@[simp] theorem default_mass : (default : MassiveBody).mass = 0 := rfl

/-! ### Lemmas about `nth` -/

theorem nth_eq_getElem (bs : List MassiveBody) (k : ℕ) (h : k < bs.length) :
    nth bs k = bs[k] := List.getD_eq_getElem bs default h

theorem nth_of_le (bs : List MassiveBody) (k : ℕ) (h : bs.length ≤ k) :
    nth bs k = default := by
  unfold nth
  rw [List.getD_eq_getElem?_getD, List.getElem?_eq_none h, Option.getD_none]

theorem nth_map (g : MassiveBody → MassiveBody) (bs : List MassiveBody) (k : ℕ) :
    nth (bs.map g) k = if k < bs.length then g (nth bs k) else default := by
  by_cases h : k < bs.length
  · rw [if_pos h, nth_eq_getElem _ _ (by simpa using h), nth_eq_getElem _ _ h,
      List.getElem_map]
  · rw [if_neg h, nth_of_le _ _ (by simpa using Nat.le_of_not_lt h)]

theorem nth_set (bs : List MassiveBody) (i k : ℕ) (a : MassiveBody) :
    nth (bs.set i a) k = if i = k ∧ i < bs.length then a else nth bs k := by
  unfold nth
  rw [List.getD_eq_getElem?_getD, List.getD_eq_getElem?_getD, List.getElem?_set]
  by_cases hik : i = k
  · subst hik
    by_cases hlen : i < bs.length
    · simp [hlen]
    · simp [hlen, List.getElem?_eq_none (Nat.le_of_not_lt hlen)]
  · simp [hik]

theorem nth_append (l₁ l₂ : List MassiveBody) (k : ℕ) :
    nth (l₁ ++ l₂) k = if k < l₁.length then nth l₁ k else nth l₂ (k - l₁.length) := by
  unfold nth
  rw [List.getD_eq_getElem?_getD, List.getD_eq_getElem?_getD, List.getD_eq_getElem?_getD,
    List.getElem?_append]
  by_cases h : k < l₁.length <;> simp [h]

/-! ### Generic list sum helpers -/

theorem sum_map_neg' {α M : Type*} [AddCommGroup M] (l : List α) (f : α → M) :
    (l.map fun x => -f x).sum = -(l.map f).sum := by
  induction l with
  | nil => simp
  | cons a l ih =>
    rw [List.map_cons, List.sum_cons, ih, List.map_cons, List.sum_cons, neg_add, add_comm]

theorem sum_map_set {α M : Type*} [AddCommGroup M] (f : α → M) :
    ∀ (l : List α) (i : ℕ) (a : α) (h : i < l.length),
      ((l.set i a).map f).sum = (l.map f).sum + f a - f (l.get ⟨i, h⟩)
  | [], i, a, h => by simp at h
  | x :: xs, 0, a, _ => by
    simp [List.set]
    abel
  | x :: xs, i + 1, a, h => by
    have ih := sum_map_set f xs i a (Nat.lt_of_succ_lt_succ h)
    simp only [List.set, List.map_cons, List.sum_cons, ih, List.get_cons_succ]
    abel

theorem foldl_flatMap {α β γ : Type*} (g : γ → β → γ) :
    ∀ (l : List α) (f : α → List β) (b : γ),
      (l.flatMap f).foldl g b = l.foldl (fun acc a => (f a).foldl g acc) b
  | [], _, _ => rfl
  | a :: l, f, b => by
    rw [List.flatMap_cons, List.foldl_append, List.foldl_cons, foldl_flatMap g l f]

theorem sum_map_flatMap {α β M : Type*} [AddCommMonoid M] (f : β → M) :
    ∀ (l : List α) (g : α → List β),
      ((l.flatMap g).map f).sum = (l.map fun a => ((g a).map f).sum).sum
  | [], _ => rfl
  | a :: l, g => by
    rw [List.flatMap_cons, List.map_append, List.sum_append, List.map_cons,
      List.sum_cons, sum_map_flatMap f l g]

theorem sum_map_nth {M : Type*} [AddCommMonoid M] (f : MassiveBody → M) :
    ∀ bs : List MassiveBody,
      (bs.map f).sum = ((List.range bs.length).map fun k => f (nth bs k)).sum
  | [] => rfl
  | b :: bs => by
    have h1 : List.range (b :: bs).length = 0 :: (List.range bs.length).map (· + 1) :=
      List.range_succ_eq_map bs.length
    rw [List.map_cons, List.sum_cons, h1, List.map_cons, List.sum_cons, List.map_map,
      sum_map_nth f bs]
    simp [Function.comp_def, nth, List.getElem?_cons_succ]

theorem list_eq_of_nth_eq {l₁ l₂ : List MassiveBody} (hlen : l₁.length = l₂.length)
    (h : ∀ k, nth l₁ k = nth l₂ k) : l₁ = l₂ := by
  refine List.ext_getElem hlen fun n h₁ h₂ => ?_
  rw [← nth_eq_getElem _ _ h₁, ← nth_eq_getElem _ _ h₂, h n]

/-! ### The pair index list of the gravity double loop -/

theorem mem_pairIndices {n : ℕ} {p : ℕ × ℕ} :
    p ∈ pairIndices n ↔ p.1 < p.2 ∧ p.2 < n := by
  obtain ⟨i, j⟩ := p
  simp only [pairIndices, List.mem_flatMap, List.mem_map, List.mem_range, List.mem_range'_1]
  constructor
  · rintro ⟨a, ha, j', ⟨hj1, hj2⟩, heq⟩
    obtain ⟨rfl, rfl⟩ := Prod.mk.injEq a j' i j ▸ And.intro (congrArg Prod.fst heq)
      (congrArg Prod.snd heq)
    omega
  · rintro ⟨hij, hjn⟩
    exact ⟨i, by omega, j, by omega, rfl⟩

theorem nodup_flatMap' {α β : Type*} (l : List α) (f : α → List β)
    (hl : l.Nodup) (hf : ∀ a ∈ l, (f a).Nodup)
    (hdisj : ∀ a ∈ l, ∀ b ∈ l, a ≠ b → (f a).Disjoint (f b)) :
    (l.flatMap f).Nodup := by
  induction l with
  | nil => simp
  | cons a l ih =>
    rw [List.flatMap_cons, List.nodup_append]
    obtain ⟨hal, hl'⟩ := List.nodup_cons.mp hl
    refine ⟨hf a (List.mem_cons_self a l),
      ih hl' (fun x hx => hf x (List.mem_cons_of_mem a hx))
        (fun x hx y hy hxy =>
          hdisj x (List.mem_cons_of_mem a hx) y (List.mem_cons_of_mem a hy) hxy), ?_⟩
    intro x hxa hxl
    obtain ⟨b, hb, hxb⟩ := List.mem_flatMap.mp hxl
    exact hdisj a (List.mem_cons_self a l) b (List.mem_cons_of_mem a hb)
      (fun hab => hal (hab ▸ hb)) hxa hxb

theorem pairIndices_nodup (n : ℕ) : (pairIndices n).Nodup := by
  refine nodup_flatMap' _ _ (List.nodup_range n) ?_ ?_
  · intro i _
    exact (List.nodup_range' (i + 1) (n - (i + 1))).map
      (fun j j' h => by simpa using congrArg Prod.snd h)
  · intro a _ b _ hab x hxa hxb
    obtain ⟨j, _, hja⟩ := List.mem_map.mp hxa
    obtain ⟨j', _, hjb⟩ := List.mem_map.mp hxb
    exact hab (congrArg Prod.fst (hja.trans hjb.symm))

theorem pairIndices_cond (bs : List MassiveBody) :
    ∀ p ∈ pairIndices bs.length, p.1 < bs.length ∧ p.2 < bs.length ∧ p.1 ≠ p.2 := by
  intro p hp
  obtain ⟨h1, h2⟩ := mem_pairIndices.mp hp
  exact ⟨lt_trans h1 h2, h2, Nat.ne_of_lt h1⟩

/-! ### Characterization of the pairwise gravity phase -/

theorem applyPairs_eq_foldl (bs : List MassiveBody) :
    applyPairs bs = (pairIndices bs.length).foldl gravityPairStep bs := by
  unfold applyPairs pairIndices
  rw [foldl_flatMap]
  simp only [List.foldl_map]

theorem gravityPairStep_length (bs : List MassiveBody) (p : ℕ × ℕ) :
    (gravityPairStep bs p).length = bs.length := by
  unfold gravityPairStep
  rw [List.length_set, List.length_set]

theorem gravityPairStep_nth (bs : List MassiveBody) (p : ℕ × ℕ)
    (h1 : p.1 < bs.length) (h2 : p.2 < bs.length) (hne : p.1 ≠ p.2) (k : ℕ) :
    nth (gravityPairStep bs p) k =
      { nth bs k with acceleration := (nth bs k).acceleration + pairDelta bs k p } := by
  obtain ⟨i, j⟩ := p
  simp only at h1 h2 hne
  unfold gravityPairStep pairDelta
  simp only
  rw [nth_set, nth_set]
  by_cases hkj : j = k
  · subst hkj
    rw [if_pos ⟨rfl, by rw [List.length_set]; exact h2⟩, apply_mirrored_gravity_snd,
      if_neg (fun hj : j = i => hne hj.symm), if_pos rfl]
    ext <;> simp [sub_eq_add_neg]
  · rw [if_neg (fun hc => hkj hc.1)]
    by_cases hki : i = k
    · subst hki
      rw [if_pos ⟨rfl, h1⟩, apply_mirrored_gravity_fst, if_pos rfl]
    · rw [if_neg (fun hc => hki hc.1), if_neg (fun hc : k = i => hki hc.symm),
        if_neg (fun hc : k = j => hkj hc.symm)]
      ext <;> simp

theorem foldPairs_length :
    ∀ (L : List (ℕ × ℕ)) (bs : List MassiveBody),
      (L.foldl gravityPairStep bs).length = bs.length
  | [], _ => rfl
  | p :: L, bs => by
    rw [List.foldl_cons, foldPairs_length L, gravityPairStep_length]

theorem pairDelta_congr {bs bs' : List MassiveBody}
    (hm : ∀ x, (nth bs' x).mass = (nth bs x).mass)
    (hp : ∀ x, (nth bs' x).position = (nth bs x).position) (k : ℕ) (p : ℕ × ℕ) :
    pairDelta bs' k p = pairDelta bs k p := by
  unfold pairDelta pairForce distance_cubed
  simp only [hm, hp]

theorem foldPairs_nth :
    ∀ (L : List (ℕ × ℕ)) (bs : List MassiveBody),
      (∀ p ∈ L, p.1 < bs.length ∧ p.2 < bs.length ∧ p.1 ≠ p.2) → ∀ k,
        nth (L.foldl gravityPairStep bs) k =
          { nth bs k with
              acceleration := (nth bs k).acceleration + (L.map (pairDelta bs k)).sum }
  | [], bs, _, k => by
    simp only [List.foldl_nil, List.map_nil, List.sum_nil, add_zero]
  | p :: L, bs, hL, k => by
    obtain ⟨h1, h2, h3⟩ := hL p (List.mem_cons_self p L)
    have hstep := gravityPairStep_nth bs p h1 h2 h3
    have hcond : ∀ q ∈ L, q.1 < (gravityPairStep bs p).length ∧
        q.2 < (gravityPairStep bs p).length ∧ q.1 ≠ q.2 := by
      intro q hq
      rw [gravityPairStep_length]
      exact hL q (List.mem_cons_of_mem p hq)
    have hδ : ∀ k' q, pairDelta (gravityPairStep bs p) k' q = pairDelta bs k' q :=
      fun k' q => pairDelta_congr (fun x => by rw [hstep x]) (fun x => by rw [hstep x]) k' q
    rw [List.foldl_cons, foldPairs_nth L (gravityPairStep bs p) hcond k, hstep k]
    have hmap : List.map (pairDelta (gravityPairStep bs p) k) L =
        List.map (pairDelta bs k) L :=
      List.map_congr_left fun q _ => hδ k q
    rw [hmap, List.map_cons, List.sum_cons]
    ext <;> simp [add_assoc]

theorem applyPairs_length (bs : List MassiveBody) : (applyPairs bs).length = bs.length := by
  rw [applyPairs_eq_foldl]
  exact foldPairs_length _ _

theorem applyPairs_nth (bs : List MassiveBody) (k : ℕ) :
    nth (applyPairs bs) k =
      { nth bs k with
          acceleration := (nth bs k).acceleration
            + ((pairIndices bs.length).map (pairDelta bs k)).sum } := by
  rw [applyPairs_eq_foldl]
  exact foldPairs_nth _ _ (pairIndices_cond bs) k

/-! ### The mirrored accumulation preserves the mass-weighted acceleration sum -/

theorem wAccel_gravityPairStep (bs : List MassiveBody) (p : ℕ × ℕ)
    (h1 : p.1 < bs.length) (h2 : p.2 < bs.length) (hne : p.1 ≠ p.2) :
    wAccel (gravityPairStep bs p) = wAccel bs := by
  obtain ⟨i, j⟩ := p
  simp only at h1 h2 hne
  unfold gravityPairStep wAccel
  simp only
  have h2' : j < (bs.set i ((nth bs i).apply_mirrored_gravity (nth bs j)).1).length := by
    rw [List.length_set]
    exact h2
  rw [sum_map_set _ _ _ _ h2', sum_map_set _ _ _ _ h1]
  have hj : (bs.set i ((nth bs i).apply_mirrored_gravity (nth bs j)).1).get ⟨j, h2'⟩ =
      nth bs j := by
    rw [List.get_eq_getElem, List.getElem_set_ne hne, ← nth_eq_getElem _ _ h2]
  have hi : bs.get ⟨i, h1⟩ = nth bs i := (nth_eq_getElem _ _ h1).symm
  rw [hj, hi, apply_mirrored_gravity_fst, apply_mirrored_gravity_snd]
  simp only
  set m1 := (nth bs i).mass
  set m2 := (nth bs j).mass
  set a1 := (nth bs i).acceleration
  set a2 := (nth bs j).acceleration
  set F := pairForce (nth bs i) (nth bs j)
  have key : m1 • (a1 + m2 • F) + m2 • (a2 - m1 • F) = m1 • a1 + m2 • a2 := by
    module
  have expand : (List.map (fun b => b.mass • b.acceleration) bs).sum
      + m1 • (a1 + m2 • F) - m1 • a1 + m2 • (a2 - m1 • F) - m2 • a2
      = (List.map (fun b => b.mass • b.acceleration) bs).sum
      + (m1 • (a1 + m2 • F) + m2 • (a2 - m1 • F)) - (m1 • a1 + m2 • a2) := by
    abel
  rw [expand, key]
  abel

theorem wAccel_foldPairs :
    ∀ (L : List (ℕ × ℕ)) (bs : List MassiveBody),
      (∀ p ∈ L, p.1 < bs.length ∧ p.2 < bs.length ∧ p.1 ≠ p.2) →
      wAccel (L.foldl gravityPairStep bs) = wAccel bs
  | [], _, _ => rfl
  | p :: L, bs, hL => by
    obtain ⟨h1, h2, h3⟩ := hL p (List.mem_cons_self p L)
    have hcond : ∀ q ∈ L, q.1 < (gravityPairStep bs p).length ∧
        q.2 < (gravityPairStep bs p).length ∧ q.1 ≠ q.2 := by
      intro q hq
      rw [gravityPairStep_length]
      exact hL q (List.mem_cons_of_mem p hq)
    rw [List.foldl_cons, wAccel_foldPairs L _ hcond, wAccel_gravityPairStep bs p h1 h2 h3]

theorem wAccel_applyPairs (bs : List MassiveBody) : wAccel (applyPairs bs) = wAccel bs := by
  rw [applyPairs_eq_foldl]
  exact wAccel_foldPairs _ _ (pairIndices_cond bs)

/-! ### Structure of the substep-length list -/

theorem substepLengths_eq (T : ℝ) (hT : 0 ≤ T) :
    substepLengths T =
      List.replicate (⌈T / (MAX_DELTA_TIME : ℝ)⌉).toNat (MAX_DELTA_TIME : ℝ)
        ++ [T - (MAX_DELTA_TIME : ℝ) * ((⌈T / (MAX_DELTA_TIME : ℝ)⌉).toNat : ℝ)] := by
  have hD : (0 : ℝ) < (MAX_DELTA_TIME : ℝ) := by norm_num [MAX_DELTA_TIME]
  have hc0 : 0 ≤ ⌈T / (MAX_DELTA_TIME : ℝ)⌉ := Int.ceil_nonneg (div_nonneg hT hD.le)
  have hcast : ((((⌈T / (MAX_DELTA_TIME : ℝ)⌉).toNat : ℤ)) : ℝ) =
      ((⌈T / (MAX_DELTA_TIME : ℝ)⌉ : ℤ) : ℝ) := by
    rw [Int.toNat_of_nonneg hc0]
  have hcount : (⌈(T + (MAX_DELTA_TIME : ℝ)) / (MAX_DELTA_TIME : ℝ)⌉).toNat =
      (⌈T / (MAX_DELTA_TIME : ℝ)⌉).toNat + 1 := by
    rw [add_div, div_self hD.ne', Int.ceil_add_one]
    omega
  unfold substepLengths arange
  rw [List.map_map, hcount, List.range_succ, List.map_append]
  congr 1
  · rw [List.eq_replicate_iff]
    refine ⟨by rw [List.length_map, List.length_range], ?_⟩
    intro b hb
    obtain ⟨k, hk, rfl⟩ := List.mem_map.mp hb
    have hkm := List.mem_range.mp hk
    have hklt : ((k : ℤ) : ℝ) < T / (MAX_DELTA_TIME : ℝ) := by
      rw [← Int.lt_ceil]
      omega
    have hpos : 0 < T - (MAX_DELTA_TIME : ℝ) * (k : ℝ) := by
      have := (lt_div_iff hD).mp hklt
      push_cast at this
      nlinarith
    simp only [Function.comp]
    rw [if_pos hpos]
  · have hle : T / (MAX_DELTA_TIME : ℝ) ≤ ((⌈T / (MAX_DELTA_TIME : ℝ)⌉).toNat : ℝ) := by
      have h1 := Int.le_ceil (T / (MAX_DELTA_TIME : ℝ))
      have h2 : ((⌈T / (MAX_DELTA_TIME : ℝ)⌉.toNat : ℝ)) = ((⌈T / (MAX_DELTA_TIME : ℝ)⌉ : ℤ) : ℝ) := by
        exact_mod_cast congrArg (fun z : ℤ => (z : ℝ)) (Int.toNat_of_nonneg hc0)
      rw [h2]
      exact h1
    have hnpos : ¬ 0 < T - (MAX_DELTA_TIME : ℝ) * ((⌈T / (MAX_DELTA_TIME : ℝ)⌉).toNat : ℝ) := by
      have := (div_le_iff hD).mp hle
      nlinarith
    simp only [List.map_cons, List.map_nil, Function.comp]
    rw [if_neg hnpos]

theorem substepLengths_sum (T : ℝ) (hT : 0 ≤ T) : (substepLengths T).sum = T := by
  rw [substepLengths_eq T hT, List.sum_append, List.sum_replicate, List.sum_cons,
    List.sum_nil, nsmul_eq_mul]
  ring

theorem substepLengths_ne_nil (T : ℝ) (hT : 0 ≤ T) : substepLengths T ≠ [] := by
  rw [substepLengths_eq T hT]
  simp

theorem substepLengths_last_nonpos (T : ℝ) (hT : 0 ≤ T) :
    T - (MAX_DELTA_TIME : ℝ) * ((⌈T / (MAX_DELTA_TIME : ℝ)⌉).toNat : ℝ) ≤ 0 := by
  have hD : (0 : ℝ) < (MAX_DELTA_TIME : ℝ) := by norm_num [MAX_DELTA_TIME]
  have hc0 : 0 ≤ ⌈T / (MAX_DELTA_TIME : ℝ)⌉ := Int.ceil_nonneg (div_nonneg hT hD.le)
  have hle : T / (MAX_DELTA_TIME : ℝ) ≤ ((⌈T / (MAX_DELTA_TIME : ℝ)⌉).toNat : ℝ) := by
    have h1 := Int.le_ceil (T / (MAX_DELTA_TIME : ℝ))
    have h2 : ((⌈T / (MAX_DELTA_TIME : ℝ)⌉.toNat : ℝ)) = ((⌈T / (MAX_DELTA_TIME : ℝ)⌉ : ℤ) : ℝ) := by
      exact_mod_cast congrArg (fun z : ℤ => (z : ℝ)) (Int.toNat_of_nonneg hc0)
    rw [h2]
    exact h1
  have := (div_le_iff hD).mp hle
  nlinarith

theorem substepLengths_zero : substepLengths 0 = [0] := by
  have h := substepLengths_eq 0 le_rfl
  rw [zero_div, Int.ceil_zero, Int.toNat_zero] at h
  simpa using h

/-! ### Per-substep lemmas -/

theorem nth_mem {bs : List MassiveBody} {k : ℕ} (hk : k < bs.length) : nth bs k ∈ bs := by
  rw [nth_eq_getElem _ _ hk]
  exact List.getElem_mem hk

theorem substepRun_length (bs : List MassiveBody) (h : ℝ) (f : Bool) :
    (substepRun bs h f).length = bs.length := by
  unfold substepRun
  rw [List.length_map, applyPairs_length, List.length_map]

theorem substepRun_accel_zero (bs : List MassiveBody) (h : ℝ) (f : Bool) :
    ∀ b ∈ substepRun bs h f, b.acceleration = 0 := by
  intro b hb
  obtain ⟨x, _, rfl⟩ := List.mem_map.mp hb
  rfl

theorem substepRun_nth_accel (bs : List MassiveBody) (h : ℝ) (f : Bool) (k : ℕ) :
    (nth (substepRun bs h f) k).acceleration = 0 := by
  by_cases hk : k < (substepRun bs h f).length
  · exact substepRun_accel_zero bs h f _ (nth_mem hk)
  · rw [nth_of_le _ _ (Nat.le_of_not_lt hk)]
    rfl

theorem substepRun_frame (bs : List MassiveBody) (h : ℝ) (f : Bool) (k : ℕ) :
    (nth (substepRun bs h f) k).mass = (nth bs k).mass ∧
    (nth (substepRun bs h f) k).radius = (nth bs k).radius ∧
    (nth (substepRun bs h f) k).id = (nth bs k).id ∧
    (nth (substepRun bs h f) k).name = (nth bs k).name := by
  unfold substepRun
  rw [nth_map, applyPairs_length, List.length_map]
  by_cases hk : k < bs.length
  · rw [if_pos hk, applyPairs_nth, nth_map, if_pos hk]
    simp
  · rw [if_neg hk, nth_of_le _ _ (Nat.le_of_not_lt hk)]
    exact ⟨rfl, rfl, rfl, rfl⟩

theorem wAccel_eq_zero_of_accel_zero (bs : List MassiveBody)
    (h0 : ∀ b ∈ bs, b.acceleration = 0) : wAccel bs = 0 := by
  unfold wAccel
  apply List.sum_eq_zero
  intro x hx
  obtain ⟨b, hb, rfl⟩ := List.mem_map.mp hx
  rw [h0 b hb, smul_zero]

theorem momentum_applyPairs (bs : List MassiveBody) :
    momentum (applyPairs bs) = momentum bs := by
  unfold momentum
  rw [sum_map_nth _ (applyPairs bs), sum_map_nth _ bs, applyPairs_length]
  apply congrArg
  apply List.map_congr_left
  intro k _
  rw [applyPairs_nth]

theorem momentum_map_half_step_of_accel_zero (bs : List MassiveBody) (h : ℝ) (f : Bool)
    (h0 : ∀ b ∈ bs, b.acceleration = 0) :
    momentum (bs.map fun b => b.update_half_step h f) = momentum bs := by
  unfold momentum
  rw [List.map_map]
  apply congrArg
  apply List.map_congr_left
  intro b hb
  simp [Function.comp, update_half_step_velocity, h0 b hb]

theorem momentum_substepRun (bs : List MassiveBody) (h : ℝ) (f : Bool)
    (h0 : ∀ b ∈ bs, b.acceleration = 0) :
    momentum (substepRun bs h f) = momentum bs := by
  unfold substepRun
  set bs1 := bs.map fun b => b.update_half_step h f with hbs1
  have h01 : ∀ b ∈ bs1, b.acceleration = 0 := by
    intro b hb
    obtain ⟨x, _, rfl⟩ := List.mem_map.mp hb
    rfl
  have hw : wAccel (applyPairs bs1) = 0 := by
    rw [wAccel_applyPairs]
    exact wAccel_eq_zero_of_accel_zero bs1 h01
  have hsplit : momentum ((applyPairs bs1).map fun b => b.update_half_step h false)
      = momentum (applyPairs bs1) + h • wAccel (applyPairs bs1) := by
    unfold momentum wAccel
    rw [List.map_map, List.smul_sum, List.map_map, ← List.sum_map_add]
    apply congrArg
    apply List.map_congr_left
    intro b _
    simp only [Function.comp, update_half_step_velocity, update_half_step_mass,
      if_neg Bool.false_ne_true]
    rw [smul_add, smul_comm]
  rw [hsplit, hw, smul_zero, add_zero, momentum_applyPairs]
  exact momentum_map_half_step_of_accel_zero bs h f h0

/-! ### The substep loop -/

theorem runSubsteps_length :
    ∀ (L : List ℝ) (bs : List MassiveBody) (f : Bool),
      (runSubsteps L bs f).length = bs.length
  | [], _, _ => rfl
  | h :: L, bs, f => by
    rw [runSubsteps, runSubsteps_length L, substepRun_length]

theorem runSubsteps_frame :
    ∀ (L : List ℝ) (bs : List MassiveBody) (f : Bool) (k : ℕ),
      (nth (runSubsteps L bs f) k).mass = (nth bs k).mass ∧
      (nth (runSubsteps L bs f) k).radius = (nth bs k).radius ∧
      (nth (runSubsteps L bs f) k).id = (nth bs k).id ∧
      (nth (runSubsteps L bs f) k).name = (nth bs k).name
  | [], _, _, _ => ⟨rfl, rfl, rfl, rfl⟩
  | h :: L, bs, f, k => by
    rw [runSubsteps]
    obtain ⟨e1, e2, e3, e4⟩ := runSubsteps_frame L (substepRun bs h f) false k
    obtain ⟨s1, s2, s3, s4⟩ := substepRun_frame bs h f k
    exact ⟨e1.trans s1, e2.trans s2, e3.trans s3, e4.trans s4⟩

theorem runSubsteps_accel_zero :
    ∀ (L : List ℝ) (bs : List MassiveBody) (f : Bool), L ≠ [] → ∀ k,
      (nth (runSubsteps L bs f) k).acceleration = 0
  | [], _, _, hne, _ => absurd rfl hne
  | [h], bs, f, _, k => by
    rw [runSubsteps, runSubsteps]
    exact substepRun_nth_accel bs h f k
  | h :: h2 :: L, bs, f, _, k => by
    rw [runSubsteps]
    exact runSubsteps_accel_zero (h2 :: L) _ false (by simp) k

theorem runSubsteps_momentum :
    ∀ (L : List ℝ) (bs : List MassiveBody) (f : Bool),
      (∀ b ∈ bs, b.acceleration = 0) →
      momentum (runSubsteps L bs f) = momentum bs
  | [], _, _, _ => rfl
  | h :: L, bs, f, h0 => by
    rw [runSubsteps,
      runSubsteps_momentum L (substepRun bs h f) false (substepRun_accel_zero bs h f)]
    exact momentum_substepRun bs h f h0

theorem applyPairs_singleton (b : MassiveBody) : applyPairs [b] = [b] := rfl

theorem substepRun_singleton (b : MassiveBody) (h : ℝ) (f : Bool)
    (hb : b.acceleration = 0) :
    substepRun [b] h f =
      [{ b with position := b.position + h • b.velocity, acceleration := 0 }] := by
  unfold substepRun
  rw [List.map_singleton, applyPairs_singleton, List.map_singleton]
  rw [update_half_step_of_accel_zero b h f hb]
  rw [update_half_step_of_accel_zero _ h false rfl]
  simp only
  congr 1
  rw [add_assoc, ← add_smul]
  norm_num

theorem runSubsteps_single :
    ∀ (L : List ℝ) (b : MassiveBody) (f : Bool), b.acceleration = 0 →
      runSubsteps L [b] f =
        [{ b with position := b.position + L.sum • b.velocity, acceleration := 0 }]
  | [], b, f, hb => by
    rw [runSubsteps]
    congr 1
    ext <;> simp [hb]
  | h :: L, b, f, hb => by
    rw [runSubsteps, substepRun_singleton b h f hb,
      runSubsteps_single L _ false rfl]
    simp only
    congr 2
    rw [List.sum_cons, add_smul, add_assoc]

theorem substepRun_zero (bs : List MassiveBody) (f : Bool)
    (h0 : ∀ b ∈ bs, b.acceleration = 0) : substepRun bs 0 f = bs := by
  apply list_eq_of_nth_eq (substepRun_length bs 0 f)
  intro k
  by_cases hk : k < bs.length
  · unfold substepRun
    rw [nth_map, applyPairs_length, List.length_map, if_pos hk, applyPairs_nth,
      nth_map, if_pos hk]
    have hb0 : (nth bs k).acceleration = 0 := h0 _ (nth_mem hk)
    ext <;> simp [MassiveBody.update_half_step, hb0]
  · rw [nth_of_le _ _ (by rw [substepRun_length]; exact Nat.le_of_not_lt hk),
      nth_of_le _ _ (Nat.le_of_not_lt hk)]

/-! ### Evaluation of the pair-delta sum at a fixed body index -/

theorem smul_pairForce (m : ℝ) (x y : MassiveBody) :
    m • pairForce x y =
      (G * m / distance_cubed x y) • (y.position - x.position) := by
  unfold pairForce
  rw [smul_smul]
  congr 1
  ring

theorem pairDelta_sum (bs : List MassiveBody) (k : ℕ) (hk : k < bs.length) :
    ((pairIndices bs.length).map (pairDelta bs k)).sum =
      ((List.range' (k + 1) (bs.length - (k + 1))).map fun j =>
        (nth bs j).mass • pairForce (nth bs k) (nth bs j)).sum
      - ((List.range k).map fun i =>
        (nth bs i).mass • pairForce (nth bs i) (nth bs k)).sum := by
  set n := bs.length with hn
  unfold pairIndices
  rw [sum_map_flatMap]
  simp only [List.map_map]
  have hmid : List.range' k (n - k) = k :: List.range' (k + 1) (n - (k + 1)) := by
    have he : n - k = (n - (k + 1)) + 1 := by omega
    rw [he, List.range'_succ]
  have hT_lt : ∀ i, i < k →
      ((List.range' (i + 1) (n - (i + 1))).map (pairDelta bs k ∘ fun j => (i, j))).sum
        = -((nth bs i).mass • pairForce (nth bs i) (nth bs k)) := by
    intro i hik
    have hsp1 : List.range' (i + 1) (n - (i + 1)) =
        List.range' (i + 1) (k - (i + 1)) ++ List.range' k (n - k) := by
      have happ := List.range'_append (i + 1) (k - (i + 1)) (n - k) 1
      have e1 : (i + 1) + 1 * (k - (i + 1)) = k := by omega
      have e2 : (n - k) + (k - (i + 1)) = n - (i + 1) := by omega
      rw [e1, e2] at happ
      exact happ.symm
    rw [hsp1, hmid, List.map_append, List.sum_append, List.map_cons, List.sum_cons]
    have z1 : ((List.range' (i + 1) (k - (i + 1))).map
        (pairDelta bs k ∘ fun j => (i, j))).sum = 0 := by
      apply List.sum_eq_zero
      intro x hx
      obtain ⟨j, hj, rfl⟩ := List.mem_map.mp hx
      have hjb := List.mem_range'_1.mp hj
      simp only [Function.comp, pairDelta]
      rw [if_neg (by omega), if_neg (by omega)]
    have z2 : ((List.range' (k + 1) (n - (k + 1))).map
        (pairDelta bs k ∘ fun j => (i, j))).sum = 0 := by
      apply List.sum_eq_zero
      intro x hx
      obtain ⟨j, hj, rfl⟩ := List.mem_map.mp hx
      have hjb := List.mem_range'_1.mp hj
      simp only [Function.comp, pairDelta]
      rw [if_neg (by omega), if_neg (by omega)]
    have hc : (pairDelta bs k ∘ fun j => (i, j)) k =
        -((nth bs i).mass • pairForce (nth bs i) (nth bs k)) := by
      simp only [Function.comp, pairDelta]
      rw [if_neg (by omega)]
      simp
    rw [z1, z2, hc]
    abel
  have hT_gt : ∀ i, k < i →
      ((List.range' (i + 1) (n - (i + 1))).map (pairDelta bs k ∘ fun j => (i, j))).sum
        = 0 := by
    intro i hik
    apply List.sum_eq_zero
    intro x hx
    obtain ⟨j, hj, rfl⟩ := List.mem_map.mp hx
    have hjb := List.mem_range'_1.mp hj
    simp only [Function.comp, pairDelta]
    rw [if_neg (by omega), if_neg (by omega)]
  have hT_k :
      ((List.range' (k + 1) (n - (k + 1))).map (pairDelta bs k ∘ fun j => (k, j))).sum
        = ((List.range' (k + 1) (n - (k + 1))).map fun j =>
            (nth bs j).mass • pairForce (nth bs k) (nth bs j)).sum := by
    apply congrArg
    apply List.map_congr_left
    intro j _
    simp [pairDelta, Function.comp]
  have hsplit : List.range n = List.range k ++ List.range' k (n - k) := by
    have happ := List.range'_append 0 k (n - k) 1
    have e1 : 0 + 1 * k = k := by omega
    have e2 : (n - k) + k = n := by omega
    rw [e1, e2] at happ
    rw [List.range_eq_range', List.range_eq_range']
    exact happ.symm
  rw [hsplit, hmid, List.map_append, List.sum_append, List.map_cons, List.sum_cons]
  have hfirst : ((List.range k).map fun i =>
      ((List.range' (i + 1) (n - (i + 1))).map (pairDelta bs k ∘ fun j => (i, j))).sum).sum
      = -(((List.range k).map fun i =>
          (nth bs i).mass • pairForce (nth bs i) (nth bs k)).sum) := by
    rw [← sum_map_neg']
    apply congrArg
    apply List.map_congr_left
    intro i hi
    exact hT_lt i (List.mem_range.mp hi)
  have hrest : ((List.range' (k + 1) (n - (k + 1))).map fun i =>
      ((List.range' (i + 1) (n - (i + 1))).map (pairDelta bs k ∘ fun j => (i, j))).sum).sum
      = 0 := by
    apply List.sum_eq_zero
    intro x hx
    obtain ⟨i, hi, rfl⟩ := List.mem_map.mp hx
    have hib := List.mem_range'_1.mp hi
    exact hT_gt i (by omega)
  rw [hfirst, hrest, hT_k]
  abel

/-! ### Registration bookkeeping -/

theorem py_init_length (b : MassiveBody) (u : Universe) (nm : String) :
    (b.py_init u nm).massive_bodies.length = u.massive_bodies.length + 1 := by
  unfold MassiveBody.py_init Universe.add_massive_body
  simp

theorem py_init_current_id (b : MassiveBody) (u : Universe) (nm : String) :
    (b.py_init u nm).current_id = u.current_id + 1 := rfl

theorem py_init_time_scale (b : MassiveBody) (u : Universe) (nm : String) :
    (b.py_init u nm).time_scale = u.time_scale := rfl

theorem py_init_nth (b : MassiveBody) (u : Universe) (nm : String) (k : ℕ) :
    nth (b.py_init u nm).massive_bodies k =
      if k < u.massive_bodies.length then nth u.massive_bodies k
      else if k = u.massive_bodies.length then
        { b with id := u.current_id, name := nm }
      else default := by
  unfold MassiveBody.py_init Universe.add_massive_body
  simp only
  rw [nth_append]
  by_cases h : k < u.massive_bodies.length
  · rw [if_pos h, if_pos h]
  · rw [if_neg h, if_neg h]
    by_cases h2 : k = u.massive_bodies.length
    · rw [if_pos h2]
      subst h2
      simp [nth]
    · rw [if_neg h2, nth_of_le]
      simp only [List.length_singleton]
      omega

theorem foldRegister_invariant :
    ∀ (regs : List (MassiveBody × String)) (u : Universe),
      u.current_id = (u.massive_bodies.length : ℤ) →
      (∀ k, k < u.massive_bodies.length → (nth u.massive_bodies k).id = (k : ℤ)) →
      (regs.foldl (fun acc p => p.1.py_init acc p.2) u).massive_bodies.length
        = u.massive_bodies.length + regs.length ∧
      (regs.foldl (fun acc p => p.1.py_init acc p.2) u).current_id
        = ((u.massive_bodies.length + regs.length : ℕ) : ℤ) ∧
      ∀ k, k < u.massive_bodies.length + regs.length →
        (nth (regs.foldl (fun acc p => p.1.py_init acc p.2) u).massive_bodies k).id = (k : ℤ)
  | [], u, hid, hids =>
    ⟨by simp, by simpa using hid, fun k hk => hids k (by simpa using hk)⟩
  | (b, nm) :: regs, u, hid, hids => by
    rw [List.foldl_cons]
    have h1 : (b.py_init u nm).massive_bodies.length = u.massive_bodies.length + 1 :=
      py_init_length b u nm
    have hid1 : (b.py_init u nm).current_id =
        ((b.py_init u nm).massive_bodies.length : ℤ) := by
      rw [py_init_current_id, h1, hid]
      push_cast
      ring
    have hids1 : ∀ k, k < (b.py_init u nm).massive_bodies.length →
        (nth (b.py_init u nm).massive_bodies k).id = (k : ℤ) := by
      intro k hk
      rw [py_init_nth]
      rw [h1] at hk
      by_cases hlt : k < u.massive_bodies.length
      · rw [if_pos hlt]
        exact hids k hlt
      · have hke : k = u.massive_bodies.length := by omega
        rw [if_neg hlt, if_pos hke]
        simp only
        rw [hid, hke]
    obtain ⟨r1, r2, r3⟩ := foldRegister_invariant regs (b.py_init u nm) hid1 hids1
    rw [h1] at r1 r2 r3
    refine ⟨?_, ?_, ?_⟩
    · rw [r1, List.length_cons]
      omega
    · rw [r2, List.length_cons]
      push_cast
      ring
    · intro k hk
      rw [List.length_cons] at hk
      exact r3 k (by omega)

/-! ## Claim theorems -/

/-- C1 (corrected): `Universe.update` folds the substep bodywork over
`substepLengths` of the scaled total; for a total `T ≥ 0` that list consists
of `⌈T / 3600⌉` substeps of length exactly `MAX_DELTA_TIME = 3600` followed by
one final substep of non-positive length `T - 3600 * ⌈T / 3600⌉` (zero when
`T` is a multiple of 3600, negative otherwise), and the substep lengths still
sum to `T`.  The claimed partition into substeps `min(remaining, 3600)` with
a positive final remainder is refuted by `C1_substep_counterexample`. -/
theorem C1_substep_partition (T : ℝ) (hT : 0 ≤ T) :
    (∀ (u : Universe) (dt : ℝ), (u.update dt).massive_bodies
        = runSubsteps (substepLengths (dt * u.time_scale)) u.massive_bodies true) ∧
    substepLengths T =
      List.replicate (⌈T / (MAX_DELTA_TIME : ℝ)⌉).toNat (MAX_DELTA_TIME : ℝ)
        ++ [T - (MAX_DELTA_TIME : ℝ) * ((⌈T / (MAX_DELTA_TIME : ℝ)⌉).toNat : ℝ)] ∧
    (substepLengths T).sum = T ∧
    T - (MAX_DELTA_TIME : ℝ) * ((⌈T / (MAX_DELTA_TIME : ℝ)⌉).toNat : ℝ) ≤ 0 :=
  ⟨fun _ _ => rfl, substepLengths_eq T hT, substepLengths_sum T hT,
    substepLengths_last_nonpos T hT⟩

/-- C1 witness: the amended partition theorem applied at the concrete total
`T = 5400`. -/
theorem C1_substep_partition_witness : (substepLengths (5400 : ℝ)).sum = 5400 :=
  (C1_substep_partition 5400 (by norm_num)).2.2.1

/-- C1 counterexample: for a total of 5000 simulated seconds the code produces
the substep lengths `[3600, 3600, -2200]`: the run overshoots with two full
substeps and compensates with a negative one, instead of the claimed
`[3600, 1400]`; in particular a non-positive substep occurs, refuting the
claim that every substep is positive and the final one equals the positive
remainder `total mod 3600`. -/
theorem C1_substep_counterexample :
    substepLengths (5000 : ℝ) = [3600, 3600, -2200] ∧
    (-2200 : ℝ) ∈ substepLengths (5000 : ℝ) ∧ ¬ (0 : ℝ) < -2200 := by
  have hD : (MAX_DELTA_TIME : ℝ) = 3600 := by norm_num [MAX_DELTA_TIME]
  have hceil : ⌈(5000 : ℝ) / (MAX_DELTA_TIME : ℝ)⌉ = 2 := by
    rw [hD, Int.ceil_eq_iff]
    norm_num
  have h := substepLengths_eq 5000 (by norm_num)
  rw [hceil, hD, show (2 : ℤ).toNat = 2 from rfl] at h
  have h2 : substepLengths (5000 : ℝ) = [3600, 3600, -2200] := by
    rw [h]
    norm_num [List.replicate]
  refine ⟨h2, ?_, by norm_num⟩
  rw [h2]
  simp

/-- C2: the kinematic half-step semantics of `MassiveBody.update_half_step`:
unless the first-step flag is set, the velocity gains the full-length kick
`acceleration * h`; the position then advances by the updated velocity times
`h / 2`; the acceleration is reset to zero.  (The claim is about how
`Universe.update` threads the flag, but the call sites at universe.py lines
44-53 omit the mandatory `is_first_step` argument entirely, so the claimed
threading cannot execute — see the spec-modelled `substepRun`.) -/
theorem C2_update_half_step_semantics (b : MassiveBody) (h : ℝ) (f : Bool) :
    (b.update_half_step h f).velocity =
      (if f then b.velocity else b.velocity + h • b.acceleration) ∧
    (b.update_half_step h f).position =
      b.position + (h / 2) • (b.update_half_step h f).velocity ∧
    (b.update_half_step h f).acceleration = 0 :=
  ⟨update_half_step_velocity b h f, update_half_step_position b h f, rfl⟩

/-- C3: the gravity double loop visits exactly the pairs `(i, j)` with
`i < j < n`, each exactly once (`pairIndices` lists them without duplicates
and `applyPairs` folds the mirrored update over that list), and its net
effect on the body at index `k` is to add
`G * mass_j / distance_cubed * (pos_j - pos_k)` for every partner `j` above
`k` and subtract `G * mass_i / distance_cubed * (pos_k - pos_i)` for every
partner `i` below `k`, leaving every other field unchanged;
`distance_cubed` is the code's `(r . r) ** (3/2) = |r|^3`. -/
theorem C3_mirrored_pairs (bs : List MassiveBody) (k : ℕ) (hk : k < bs.length) :
    (∀ p : ℕ × ℕ, p ∈ pairIndices bs.length ↔ p.1 < p.2 ∧ p.2 < bs.length) ∧
    (pairIndices bs.length).Nodup ∧
    applyPairs bs = (pairIndices bs.length).foldl gravityPairStep bs ∧
    (applyPairs bs).length = bs.length ∧
    nth (applyPairs bs) k =
      { nth bs k with
          acceleration := (nth bs k).acceleration
            + ((List.range' (k + 1) (bs.length - (k + 1))).map fun j =>
                (G * (nth bs j).mass / distance_cubed (nth bs k) (nth bs j)) •
                  ((nth bs j).position - (nth bs k).position)).sum
            - ((List.range k).map fun i =>
                (G * (nth bs i).mass / distance_cubed (nth bs i) (nth bs k)) •
                  ((nth bs k).position - (nth bs i).position)).sum } := by
  refine ⟨fun p => mem_pairIndices, pairIndices_nodup bs.length, applyPairs_eq_foldl bs,
    applyPairs_length bs, ?_⟩
  have e1 : ((List.range' (k + 1) (bs.length - (k + 1))).map fun j =>
      (nth bs j).mass • pairForce (nth bs k) (nth bs j))
      = ((List.range' (k + 1) (bs.length - (k + 1))).map fun j =>
        (G * (nth bs j).mass / distance_cubed (nth bs k) (nth bs j)) •
          ((nth bs j).position - (nth bs k).position)) :=
    List.map_congr_left fun j _ => smul_pairForce _ _ _
  have e2 : ((List.range k).map fun i =>
      (nth bs i).mass • pairForce (nth bs i) (nth bs k))
      = ((List.range k).map fun i =>
        (G * (nth bs i).mass / distance_cubed (nth bs i) (nth bs k)) •
          ((nth bs k).position - (nth bs i).position)) :=
    List.map_congr_left fun i _ => smul_pairForce _ _ _
  rw [applyPairs_nth, pairDelta_sum bs k hk, e1, e2, add_sub_assoc]

/-- C3 witness: the pair-loop characterization applied to the concrete
two-body universe at index 0. -/
theorem C3_mirrored_pairs_witness :
    (applyPairs uTwo.massive_bodies).length = uTwo.massive_bodies.length :=
  (C3_mirrored_pairs uTwo.massive_bodies 0 (by simp [uTwo])).2.2.2.1

/-- C4: for a quiescent simulation state (every acceleration zero, which by
C10 holds at every point where `advance` can be called), the mass-weighted
sum of velocities `momentum` is exactly invariant across `Universe.update`
in exact arithmetic: each pair's mirrored contributions cancel in the
mass-weighted acceleration sum. -/
theorem C4_momentum_conserved (u : Universe) (t : ℝ)
    (h0 : ∀ b ∈ u.massive_bodies, b.acceleration = 0) :
    momentum (u.update t).massive_bodies = momentum u.massive_bodies := by
  unfold Universe.update
  exact runSubsteps_momentum _ _ _ h0

/-- C4 witness: momentum conservation applied to the concrete two-body
universe over a call spanning two substeps. -/
theorem C4_momentum_conserved_witness :
    momentum (uTwo.update 5000).massive_bodies = momentum uTwo.massive_bodies :=
  C4_momentum_conserved uTwo 5000 (by
    intro b hb
    simp only [uTwo, List.mem_cons, List.mem_singleton, List.not_mem_nil,
      or_false] at hb
    rcases hb with rfl | rfl <;> rfl)

/-- C5: with exactly one body, quiescent acceleration and `time_scale = 1`,
`advance(t)` for `t ≥ 0` leaves velocity and acceleration unchanged and moves
the position by exactly `velocity * t`, independent of the substep
splitting. -/
theorem C5_single_body (u : Universe) (b : MassiveBody) (t : ℝ)
    (hts : u.time_scale = 1) (ht : 0 ≤ t) (hbs : u.massive_bodies = [b])
    (hb : b.acceleration = 0) :
    (u.update t).massive_bodies =
      [{ b with position := b.position + t • b.velocity }] := by
  unfold Universe.update
  simp only [hbs, hts, mul_one]
  rw [runSubsteps_single (substepLengths t) b true hb, substepLengths_sum t ht]
  congr 1
  ext <;> simp [hb]

/-- C5 witness: the single-body straight-line motion applied to the concrete
one-body universe for a two-hour call (two substeps). -/
theorem C5_single_body_witness :
    (uOne.update 7200).massive_bodies =
      [{ bodyA with position := bodyA.position + (7200 : ℝ) • bodyA.velocity }] :=
  C5_single_body uOne bodyA 7200 rfl (by norm_num) rfl rfl

/-- C6: `advance(0)` is the identity on any quiescent simulation state (every
acceleration zero): position, velocity and acceleration of every body, the
body list, and the universe bookkeeping fields are all unchanged. -/
theorem C6_advance_zero (u : Universe)
    (h0 : ∀ b ∈ u.massive_bodies, b.acceleration = 0) :
    u.update 0 = u := by
  unfold Universe.update
  rw [zero_mul, substepLengths_zero,
    show runSubsteps [0] u.massive_bodies true
      = substepRun u.massive_bodies 0 true from rfl,
    substepRun_zero _ _ h0]

/-- C6 witness: `advance(0)` on the concrete two-body universe. -/
theorem C6_advance_zero_witness : uTwo.update 0 = uTwo :=
  C6_advance_zero uTwo (by
    intro b hb
    simp only [uTwo, List.mem_cons, List.mem_singleton, List.not_mem_nil,
      or_false] at hb
    rcases hb with rfl | rfl <;> rfl)

/-- C7 counterexample: constructing a body with `mass = -1 ≤ 0` and
`radius = -2 < 0` succeeds — no validation and no `InvalidParameterError`
exist in `MassiveBody.__init__` — and the resulting body registers into a
simulation like any other. -/
theorem C7_construction_counterexample :
    (MassiveBody.init (-1) (-2) (0, 0) (0, 0)).mass = -1 ∧ ((-1 : ℝ) ≤ 0) ∧
    ((MassiveBody.init (-1) (-2) (0, 0) (0, 0)).py_init Universe.init
      "x").massive_bodies.length = 1 :=
  ⟨rfl, by norm_num, rfl⟩

/-- C7 (corrected): construction never fails: `MassiveBody.__init__` performs
no validation, accepting `mass ≤ 0` and `radius < 0` unchanged, initializing
acceleration to zero and id to the unassigned sentinel -1; such a body enters
the simulation through registration like any other. -/
theorem C7_construction_no_validation (mass radius : ℝ) (p v : Vec)
    (h : mass ≤ 0 ∨ radius < 0) (u : Universe) (nm : String) :
    (MassiveBody.init mass radius p v).mass = mass ∧
    (MassiveBody.init mass radius p v).radius = radius ∧
    (MassiveBody.init mass radius p v).acceleration = 0 ∧
    (MassiveBody.init mass radius p v).id = -1 ∧
    ((MassiveBody.init mass radius p v).py_init u nm).massive_bodies.length
      = u.massive_bodies.length + 1 ∧
    nth ((MassiveBody.init mass radius p v).py_init u nm).massive_bodies
        u.massive_bodies.length
      = { MassiveBody.init mass radius p v with id := u.current_id, name := nm } := by
  refine ⟨rfl, rfl, rfl, rfl, py_init_length _ _ _, ?_⟩
  rw [py_init_nth]
  simp

/-- C7 witness: the no-validation theorem applied at the concrete invalid
input `mass = -1`. -/
theorem C7_construction_no_validation_witness :
    ((MassiveBody.init (-1 : ℝ) 0 (0, 0) (0, 0)).py_init Universe.init
      "y").massive_bodies.length = Universe.init.massive_bodies.length + 1 :=
  (C7_construction_no_validation (-1) 0 (0, 0) (0, 0) (Or.inl (by norm_num))
    Universe.init "y").2.2.2.2.1

/-- C8: starting from a freshly created universe (counter 0), N sequential
registrations produce a collection of length N whose entry at index k has id
exactly k — ids are 0..N-1 in registration order with no gaps or reuse — and
the counter ends at N. -/
theorem C8_register_ids (regs : List (MassiveBody × String)) :
    (regs.foldl (fun acc p => p.1.py_init acc p.2) Universe.init).massive_bodies.length
      = regs.length ∧
    (regs.foldl (fun acc p => p.1.py_init acc p.2) Universe.init).current_id
      = (regs.length : ℤ) ∧
    ∀ k, k < regs.length →
      (nth (regs.foldl (fun acc p => p.1.py_init acc p.2)
        Universe.init).massive_bodies k).id = (k : ℤ) := by
  have h := foldRegister_invariant regs Universe.init (by simp [Universe.init])
    (by intro k hk; simp [Universe.init] at hk)
  simpa [Universe.init] using h

/-- C8 witness: after registering two concrete bodies in a fresh universe,
the body at index 1 has id 1. -/
theorem C8_register_ids_witness :
    (nth ([(bodyA, "a"), (bodyB, "b")].foldl
      (fun acc p => p.1.py_init acc p.2) Universe.init).massive_bodies 1).id = 1 := by
  exact_mod_cast (C8_register_ids [(bodyA, "a"), (bodyB, "b")]).2.2 1 (by norm_num)

/-- C9: `Universe.update` only mutates position, velocity and acceleration:
every body's mass, radius, id and name, the body list's length (and with the
per-index id/name preservation, its order), and the universe's `current_id`
and `time_scale` are unchanged by the call. -/
theorem C9_update_frame (u : Universe) (t : ℝ) :
    (u.update t).time_scale = u.time_scale ∧
    (u.update t).current_id = u.current_id ∧
    (u.update t).massive_bodies.length = u.massive_bodies.length ∧
    ∀ k, (nth (u.update t).massive_bodies k).mass = (nth u.massive_bodies k).mass ∧
      (nth (u.update t).massive_bodies k).radius = (nth u.massive_bodies k).radius ∧
      (nth (u.update t).massive_bodies k).id = (nth u.massive_bodies k).id ∧
      (nth (u.update t).massive_bodies k).name = (nth u.massive_bodies k).name := by
  refine ⟨rfl, rfl, ?_, ?_⟩
  · exact runSubsteps_length _ _ _
  · exact fun k => runSubsteps_frame _ _ _ k

/-- C10: acceleration is the zero vector at every quiescent point of the
interface: it is initialized to zero at construction, every kinematic half
step ends by resetting it to zero, and whenever `Universe.update` returns
after a call whose scaled total time is non-negative (so at least one substep
runs and ends with a half-step pass over every body), every body's
acceleration is zero. -/
theorem C10_accel_quiescent :
    (∀ (m r : ℝ) (p v : Vec), (MassiveBody.init m r p v).acceleration = 0) ∧
    (∀ (b : MassiveBody) (h : ℝ) (f : Bool),
      (b.update_half_step h f).acceleration = 0) ∧
    (∀ (u : Universe) (t : ℝ), 0 ≤ t * u.time_scale →
      ∀ k, (nth (u.update t).massive_bodies k).acceleration = 0) := by
  refine ⟨fun m r p v => rfl, fun b h f => rfl, ?_⟩
  intro u t ht k
  unfold Universe.update
  exact runSubsteps_accel_zero _ _ _ (substepLengths_ne_nil _ ht) k

/-- C10 witness: the quiescence theorem applied to the concrete two-body
universe after a one-hour call. -/
theorem C10_accel_quiescent_witness :
    (nth (uTwo.update 3600).massive_bodies 0).acceleration = 0 :=
  C10_accel_quiescent.2.2 uTwo 3600 (by norm_num [uTwo]) 0

end UniversePy
